import Mathlib

/-!
Verification development for the RabbitMQ queue manager
(`src/rabbitmq_interface.py`).  The Python source is shallowly embedded:

* A message body delivered by the broker is a byte sequence.  The code only
  ever observes it through `json.loads(body.decode("utf-8"))` followed
  immediately by a `data.get(...)` attribute access, which has exactly four
  behaviour classes, captured by `RMQ.Body`: a successful parse to a JSON
  object; a successful parse to a non-object JSON value (null, number,
  list, string), on which `data.get` raises `AttributeError`; a
  `json.JSONDecodeError` (valid UTF-8 that is not parseable JSON); or a
  `UnicodeDecodeError` from `bytes.decode("utf-8")` on invalid UTF-8.
  The code catches only `json.JSONDecodeError`.
* The broker channel (`pika` channel over one queue) is `RMQ.Channel`:
  `basic_get(auto_ack=False)` pops the queue front and records the delivery
  under a fresh increasing delivery tag; `basic_nack(requeue=True)`
  re-enqueues the body at the queue front (the model named by the spec).
* Each browsing operation of the source is embedded as a function from a
  channel to a `run` record carrying the final channel, the delivery tags in
  fetch order, the delivery tags in the order negative acknowledgements were
  issued, and whether an uncaught exception escaped the display/decoding code.
-/

namespace RMQ

/-- The JSON-object fields the tool reads (`data.get(...)` with a default).
`none` models an absent field. -/
structure JsonObj where
  type? : Option String
  imei? : Option String
  device? : Option String
  timestamp? : Option String
  command? : Option String
  command_id? : Option String
  source? : Option String
deriving DecidableEq

def JsonObj.empty : JsonObj := ⟨none, none, none, none, none, none, none⟩

/-- A message body (byte sequence) as seen through
`json.loads(body.decode("utf-8"))` and the `data.get(...)` access every
call site performs right after it. -/
inductive Body
  /-- valid UTF-8, `json.loads` yields a dict -/
  | obj (o : JsonObj)
  /-- valid UTF-8, `json.loads` yields a non-dict JSON value (null, number,
  list, string, bool): the following `data.get` raises `AttributeError` -/
  | nonObj
  /-- valid UTF-8, `json.loads` raises `json.JSONDecodeError` -/
  | badJson
  /-- invalid UTF-8: `bytes.decode("utf-8")` raises `UnicodeDecodeError` -/
  | badUtf8
deriving DecidableEq

/-- One AMQP channel restricted to the single queue an operation browses.
`queue` lists pending bodies front-first; `nextTag` is the next delivery tag
the broker will assign; `unacked` are outstanding unacknowledged deliveries. -/
structure Channel where
  queue : List Body
  nextTag : Nat
  unacked : List (Nat × Body)
deriving DecidableEq

/-- `channel.basic_get(queue, auto_ack=False)`: `none` models
`method_frame is None` (empty queue). -/
def basicGet (ch : Channel) : Option (Nat × Body) × Channel :=
  match ch.queue with
  | [] => (none, ch)
  | b :: rest =>
      (some (ch.nextTag, b),
       { queue := rest, nextTag := ch.nextTag + 1,
         unacked := ch.unacked ++ [(ch.nextTag, b)] })

/-- `channel.basic_nack(delivery_tag=tag, requeue=True)` (requeue is pika's
default): the broker re-enqueues the unacknowledged body at the queue front. -/
def basicNack (ch : Channel) (tag : Nat) : Channel :=
  match ch.unacked.find? (fun p => p.1 == tag) with
  | some pb =>
      { queue := pb.2 :: ch.queue, nextTag := ch.nextTag,
        unacked := ch.unacked.filter (fun p => p.1 != tag) }
  | none => ch

/-- Loop state of `peek_messages`: channel, `messages_to_requeue` (delivery
tags in fetch order), `messages_shown`, and whether an exception escaped. -/
structure PeekSt where
  ch : Channel
  fetched : List Nat
  shown : Nat
  raised : Bool
deriving DecidableEq

/-- The `for i in range(min(limit * 3, message_count))` loop of
`peek_messages` (lines 641-667).  Every fetched delivery tag is appended to
`fetched` before any decoding.  With a filter, the IMEI check catches only
`json.JSONDecodeError` (`continue`); invalid UTF-8 raises at the strict
decode, and a non-object parse raises `AttributeError` at
`data.get("imei", ...)` (line 656).  Displayed messages count toward
`shown`; the loop breaks once `limit` are shown; without a filter,
`_display_message` raises on the same two body classes. -/
def peekLoop (target? : Option String) (limit : Nat) : Nat → PeekSt → PeekSt
  | 0, s => s
  | fuel + 1, s =>
    match basicGet s.ch with
    | (none, _) => s
    | (some (tag, b), ch1) =>
      match target?, b with
      | some t, .obj o =>
        if o.imei?.getD "UNKNOWN" = t then
          if limit ≤ s.shown + 1 then ⟨ch1, s.fetched ++ [tag], s.shown + 1, s.raised⟩
          else peekLoop target? limit fuel ⟨ch1, s.fetched ++ [tag], s.shown + 1, s.raised⟩
        else peekLoop target? limit fuel ⟨ch1, s.fetched ++ [tag], s.shown, s.raised⟩
      | some _, .badJson => peekLoop target? limit fuel ⟨ch1, s.fetched ++ [tag], s.shown, s.raised⟩
      | some _, .nonObj => ⟨ch1, s.fetched ++ [tag], s.shown, true⟩
      | some _, .badUtf8 => ⟨ch1, s.fetched ++ [tag], s.shown, true⟩
      | none, .nonObj => ⟨ch1, s.fetched ++ [tag], s.shown, true⟩
      | none, .badUtf8 => ⟨ch1, s.fetched ++ [tag], s.shown, true⟩
      | none, .obj _ =>
        if limit ≤ s.shown + 1 then ⟨ch1, s.fetched ++ [tag], s.shown + 1, s.raised⟩
        else peekLoop target? limit fuel ⟨ch1, s.fetched ++ [tag], s.shown + 1, s.raised⟩
      | none, .badJson =>
        if limit ≤ s.shown + 1 then ⟨ch1, s.fetched ++ [tag], s.shown + 1, s.raised⟩
        else peekLoop target? limit fuel ⟨ch1, s.fetched ++ [tag], s.shown + 1, s.raised⟩

/-- Outcome record of `peek_messages`. -/
structure PeekRun where
  ch : Channel
  fetched : List Nat
  nacked : List Nat
  shown : Nat
  raised : Bool
deriving DecidableEq

/-- `RabbitMQInterface.peek_messages` (lines 616-683): read
`message_count`, run the fetch/display loop over a budget of
`min(limit * 3, message_count)`, and in the `finally` block negatively
acknowledge every fetched tag in reverse fetch order. -/
def peek_messages (target? : Option String) (limit : Nat) (ch : Channel) : PeekRun :=
  let mc := ch.queue.length
  if mc = 0 then ⟨ch, [], [], 0, false⟩
  else
    let s := peekLoop target? limit (min (limit * 3) mc) ⟨ch, [], 0, false⟩
    ⟨s.fetched.reverse.foldl basicNack s.ch, s.fetched, s.fetched.reverse, s.shown, s.raised⟩

/-- Outcome record of the other browsing operations. -/
structure BrowseRun where
  ch : Channel
  fetched : List Nat
  nacked : List Nat
  raised : Bool
deriving DecidableEq

/-- The collection loop of `list_queue_commands` (lines 250-258): fetch
`message_count` messages, breaking if the broker reports none. -/
def fetchN : Nat → Channel → Channel × List (Nat × Body)
  | 0, ch => (ch, [])
  | n + 1, ch =>
    match basicGet ch with
    | (none, ch1) => (ch1, [])
    | (some tb, ch1) =>
      let r := fetchN n ch1
      (r.1, tb :: r.2)

/-- Whether displaying a body raises uncaught: a body that is not valid
UTF-8 raises `UnicodeDecodeError` at the strict `body.decode("utf-8")`,
and a non-object JSON parse raises `AttributeError` at the first
`data.get`; only `json.JSONDecodeError` is ever caught. -/
def displayRaises : Body → Bool
  | .obj _ => false
  | .badJson => false
  | .nonObj => true
  | .badUtf8 => true

/-- `RabbitMQInterface.list_queue_commands` (lines 221-295): fetch every
message, display the last 10 (`messages[-show_limit:]`), then nack all
fetched tags in reverse order.  The nack loop is NOT in a `finally` block:
if displaying raises (the strict `body.decode("utf-8")` of line 268, or
`data.get` on a non-object parse at line 269), control jumps to the outer
`except` and no message is restored. -/
def list_queue_commands (ch : Channel) : BrowseRun :=
  let mc := ch.queue.length
  if mc = 0 then ⟨ch, [], [], false⟩
  else
    let fr := fetchN mc ch
    let fetched := fr.2.map Prod.fst
    let toShow := if mc ≤ 10 then fr.2 else fr.2.drop (mc - 10)
    if toShow.any (fun p => displayRaises p.2) then
      ⟨fr.1, fetched, [], true⟩
    else
      ⟨fetched.reverse.foldl basicNack fr.1, fetched, fetched.reverse, false⟩

/-- The sample loop of `inspect_queue_by_name` (lines 1080-1109): fetch a
message, display it (only `json.JSONDecodeError` is caught), then
immediately `basic_nack` it — each nack is issued in fetch order, inside
the loop body, not in a cleanup block.  A body that is not valid UTF-8
(`UnicodeDecodeError`) or that parses to a non-object (`AttributeError` at
`data.get`, line 1091) raises before its nack, leaving that delivery
unacknowledged. -/
def inspectLoop : Nat → Channel → List Nat → List Nat → BrowseRun
  | 0, ch, fetched, nacked => ⟨ch, fetched, nacked, false⟩
  | fuel + 1, ch, fetched, nacked =>
    match basicGet ch with
    | (none, ch1) => ⟨ch1, fetched, nacked, false⟩
    | (some (tag, b), ch1) =>
      match b with
      | .nonObj => ⟨ch1, fetched ++ [tag], nacked, true⟩
      | .badUtf8 => ⟨ch1, fetched ++ [tag], nacked, true⟩
      | _ => inspectLoop fuel (basicNack ch1 tag) (fetched ++ [tag]) (nacked ++ [tag])

/-- `RabbitMQInterface.inspect_queue_by_name` (lines 1042-1129): show up
to `min(3, message_count)` sample messages, nacking each one right after
its display. -/
def inspect_queue_by_name (ch : Channel) : BrowseRun :=
  let mc := ch.queue.length
  if mc = 0 then ⟨ch, [], [], false⟩
  else inspectLoop (min 3 mc) ch [] []

/-- The peek loop of `_check_command_queue_status` (lines 453-491): fetch up
to `min(message_count, 3)` messages, delivery tags recorded before parsing;
only `json.JSONDecodeError` is caught — invalid UTF-8 and a non-object
parse (`data.get`, line 468) raise into the `finally` block. -/
def ccqLoop : Nat → Channel → List Nat → Channel × List Nat × Bool
  | 0, ch, fetched => (ch, fetched, false)
  | fuel + 1, ch, fetched =>
    match basicGet ch with
    | (none, ch1) => (ch1, fetched, false)
    | (some (tag, b), ch1) =>
      match b with
      | .nonObj => (ch1, fetched ++ [tag], true)
      | .badUtf8 => (ch1, fetched ++ [tag], true)
      | _ => ccqLoop fuel ch1 (fetched ++ [tag])

/-- `RabbitMQInterface._check_command_queue_status` (lines 422-501): the
`finally` block nacks every stored tag in reverse order even when the
display loop raised. -/
def check_command_queue_status (ch : Channel) : BrowseRun :=
  let mc := ch.queue.length
  if mc = 0 then ⟨ch, [], [], false⟩
  else
    let r := ccqLoop (min mc 3) ch []
    ⟨r.2.1.reverse.foldl basicNack r.1, r.2.1, r.2.1.reverse, r.2.2⟩

/-- One queue descriptor as built by discovery (name, messages, consumers,
durable, auto_delete). -/
structure QueueSnapshot where
  name : String
  messages : Nat
  consumers : Nat
  durable : Bool
  auto_delete : Bool
deriving DecidableEq

/-- Outcome of the HTTP GET against `http://host:15672/api/queues`:
either the request raised, or a response with a status code and (for 200)
the broker-wide queue list already shaped into snapshots
(`queue.get('name', ...)` etc., lines 864-871). -/
inductive MgmtResponse
  | unreachable
  | status (code : Nat) (queues : List QueueSnapshot)
deriving DecidableEq

/-- `self.data_queue` (line 68). -/
def data_queue : String := "device_tcp_data"

/-- The fixed probe candidate list `system_queues` of
`_discover_queues_smart` (lines 887-891).  The `imei_prefixes` list defined
next to it is never used to extend `check_queues`, so these seven names are
the whole fallback candidate set. -/
def system_queues : List String :=
  [data_queue, "device_commands", "system_alerts", "error_queue",
   "dead_letter_queue", "audit_log", "notifications"]

/-- The probe loop of `_discover_queues_smart` (lines 911-928): for each
candidate not already discovered, a passive declare; success appends a
snapshot (durable/auto_delete are reported as `True`/`False` literals) and
records the name; failure (queue absent) is skipped.  `existing` gives a
present queue's (message_count, consumer_count). -/
def probeLoop (existing : String → Option (Nat × Nat)) :
    List String → List QueueSnapshot → List String → List QueueSnapshot
  | [], found, _ => found
  | c :: cs, found, seen =>
    if c ∈ seen then probeLoop existing cs found seen
    else
      match existing c with
      | some mc => probeLoop existing cs (found ++ [⟨c, mc.1, mc.2, true, false⟩]) (seen ++ [c])
      | none => probeLoop existing cs found seen

/-- The fallback ("Method 2") of `_discover_queues_smart`. -/
def probeFallback (existing : String → Option (Nat × Nat)) : List QueueSnapshot :=
  probeLoop existing system_queues [] []

/-- Result of `_discover_queues_smart`: the snapshots, whether the probe
fallback was taken, and whether a caller-visible warning that discovery may
be incomplete was logged (lines 930-934 warn on both fallback branches). -/
structure DiscoveryResult where
  queues : List QueueSnapshot
  usedFallback : Bool
  warnedIncomplete : Bool
deriving DecidableEq

/-- `RabbitMQInterface._discover_queues_smart` (lines 824-936): a 200
management response is returned as-is; any other status raises into the
`except` (line 874) and, like an unreachable endpoint, falls through to the
probe fallback with an incompleteness warning. -/
def discover_queues_smart (mgmt : MgmtResponse)
    (existing : String → Option (Nat × Nat)) : DiscoveryResult :=
  match mgmt with
  | .status code qs =>
      if code = 200 then ⟨qs, false, false⟩
      else ⟨probeFallback existing, true, true⟩
  | .unreachable => ⟨probeFallback existing, true, true⟩

/-- `RabbitMQInterface.is_imei_format` (lines 800-802):
`queue_name.isdigit() and len(queue_name) == 15`.  Python's `isdigit` is
false on the empty string; the digits here are ASCII `0`-`9`. -/
def is_imei_format (queue_name : String) : Bool :=
  (!queue_name.data.isEmpty && queue_name.data.all Char.isDigit)
    && queue_name.data.length == 15

/-- The `filter_type` dispatch of `list_all_queues` (lines 974-980), an
`if/elif` chain on the filter-type string. -/
def applyFilter (filter_type : String) (qs : List QueueSnapshot) : List QueueSnapshot :=
  if filter_type = "non-imei" then qs.filter (fun q => !is_imei_format q.name)
  else if filter_type = "imei-only" then qs.filter (fun q => is_imei_format q.name)
  else if filter_type = "active" then qs.filter (fun q => q.messages > 0 || q.consumers > 0)
  else qs

/-- The status cell of `list_all_queues` (lines 1014-1022). -/
inductive QueueStatus
  | busy
  | active
  | backlog
  | idle
deriving DecidableEq

/-- The `if/elif` chain classifying one queue row (lines 1015-1022). -/
def classify_queue (messages consumers : Nat) : QueueStatus :=
  if 0 < consumers ∧ 0 < messages then .busy
  else if 0 < consumers then .active
  else if 0 < messages then .backlog
  else .idle

/-- Python `str.lower()` (ASCII range; queue names here are ASCII). -/
def lowerStr (s : String) : String := ⟨s.data.map Char.toLower⟩

/-- `needle` is a leading segment of `hay`. -/
def leadsList : List Char → List Char → Bool
  | [], _ => true
  | _ :: _, [] => false
  | a :: as, b :: bs => a == b && leadsList as bs

/-- Python's substring test `needle in hay` on character lists. -/
def containsList (needle hay : List Char) : Bool :=
  (List.range (hay.length + 1)).any (fun i => leadsList needle (hay.drop i))

/-- `search_term_lower in q['name'].lower()` (line 816). -/
def strContainsCI (hay needle : String) : Bool :=
  containsList (lowerStr needle).data (lowerStr hay).data

/-- The filter of `find_queues_by_partial_name` (line 816), applied to a
discovered set. -/
def findFrom (discovered : List QueueSnapshot) (searchTerm : String) : List QueueSnapshot :=
  discovered.filter (fun q => strContainsCI q.name searchTerm)

/-- `RabbitMQInterface.find_queues_by_partial_name` (lines 804-822):
case-insensitive substring filter over the smart-discovered set. -/
def find_queues_by_partial_name (mgmt : MgmtResponse)
    (existing : String → Option (Nat × Nat)) (searchTerm : String) : List QueueSnapshot :=
  findFrom (discover_queues_smart mgmt existing).queues searchTerm

/-- Descending-by-message-count order used by
`matching_queues.sort(key=lambda x: x['messages'], reverse=True)`. -/
def msgGe (a b : QueueSnapshot) : Prop := b.messages ≤ a.messages

instance : DecidableRel msgGe :=
  fun a b => inferInstanceAs (Decidable (b.messages ≤ a.messages))

instance : IsTotal QueueSnapshot msgGe :=
  ⟨fun a b => Nat.le_total b.messages a.messages⟩

instance : IsTrans QueueSnapshot msgGe :=
  ⟨fun _ _ _ hab hbc => Nat.le_trans hbc hab⟩

/-- Python's stable in-place sort with `key=messages, reverse=True`,
modelled by a stable insertion sort under `msgGe`. -/
def sortByMessagesDesc (qs : List QueueSnapshot) : List QueueSnapshot :=
  List.insertionSort msgGe qs

/-- Caller-relevant outcome of `inspect_queues_by_partial_name`. -/
inductive InspectOutcome
  /-- zero matches: failure plus a broaden-your-search hint (lines 1141-1144) -/
  | notFound
  /-- one queue is inspected directly -/
  | inspected (name : String)
  /-- several matches: the disambiguation table shown to the operator -/
  | disambiguate (qs : List QueueSnapshot)
deriving DecidableEq

/-- `RabbitMQInterface.inspect_queues_by_partial_name` (lines 1131-1208):
zero matches report failure with a hint; the matches are sorted by
descending message count; a single match is inspected directly; several
matches are listed for disambiguation. -/
def inspect_queues_by_partial_name (mgmt : MgmtResponse)
    (existing : String → Option (Nat × Nat)) (searchTerm : String) : InspectOutcome :=
  let ms := find_queues_by_partial_name mgmt existing searchTerm
  if ms = [] then .notFound
  else
    let sorted := sortByMessagesDesc ms
    if ms.length = 1 then .inspected (sorted.headD ⟨"", 0, 0, false, false⟩).name
    else .disambiguate sorted

/-- The exact-then-partial dispatch of menu option 5 (lines 1428-1445):
a successful passive declare of the exact term inspects it directly,
otherwise the partial search runs. -/
def inspect_search (exactExists : String → Bool) (mgmt : MgmtResponse)
    (existing : String → Option (Nat × Nat)) (searchTerm : String) : InspectOutcome :=
  if exactExists searchTerm then .inspected searchTerm
  else inspect_queues_by_partial_name mgmt existing searchTerm

/-- The JSON command envelope built by `send_command` (lines 161-166). -/
structure CommandEnvelope where
  command_id : String
  command : String
  timestamp : String
  source : String
deriving DecidableEq

/-- A command queue: its durability flag and its messages, each body paired
with its persistence flag (`delivery_mode=2`). -/
structure CmdQueue where
  durable : Bool
  msgs : List (CommandEnvelope × Bool)
deriving DecidableEq

/-- Broker state for command dispatch: queue name to queue. -/
abbrev CmdBroker : Type := List (String × CmdQueue)

/-- Look a queue up by name. -/
def lookupQ (b : CmdBroker) (n : String) : Option CmdQueue :=
  (List.find? (fun p => p.1 == n) b).map Prod.snd

/-- `channel.queue_declare(queue=imei, durable=True)` (line 169):
creation if absent, no-op if present. -/
def queue_declare_durable (b : CmdBroker) (n : String) : CmdBroker :=
  match lookupQ b n with
  | some _ => b
  | none => b ++ [(n, ⟨true, []⟩)]

/-- `channel.basic_publish(exchange="", routing_key=n, ..., delivery_mode=2)`
(lines 172-180): the default exchange appends the persistent message to the
queue named by the routing key. -/
def basic_publish (b : CmdBroker) (n : String) (m : CommandEnvelope) : CmdBroker :=
  List.map (fun p => if p.1 == n then (p.1, CmdQueue.mk p.2.durable (p.2.msgs ++ [(m, true)])) else p) b

/-- What `send_command` returned and reported. -/
structure SendResult where
  broker : CmdBroker
  envelope : CommandEnvelope
  reportedDepth : Nat
  ok : Bool

/-- `RabbitMQInterface.send_command` (lines 153-197): mint a command id if
none is supplied (`freshUuid` stands for `str(uuid.uuid4())`, `now` for
`str(int(time.time()))`), declare the queue durable, publish persistently,
then report the queue depth read back by a passive declare. -/
def send_command (b : CmdBroker) (imei command : String)
    (commandId? : Option String) (freshUuid : String) (now : String) : SendResult :=
  let cid := match commandId? with
    | none => freshUuid
    | some c => c
  let msg : CommandEnvelope := ⟨cid, command, now, "command_sender"⟩
  let b1 := queue_declare_durable b imei
  let b2 := basic_publish b1 imei msg
  ⟨b2, msg, ((lookupQ b2 imei).map (fun q => q.msgs.length)).getD 0, true⟩

/-! ### Lemmas about requeue restoration -/

theorem find?_eq_of_head_tags_ne {l : List (Nat × Body)} {t : Nat}
    (h : ∀ p ∈ l, p.1 ≠ t) (l2 : List (Nat × Body)) :
    List.find? (fun p => p.1 == t) (l ++ l2) = List.find? (fun p => p.1 == t) l2 := by
  induction l with
  | nil => rfl
  | cons a l ih =>
    have ha : (a.1 == t) = false := by
      simpa using h a (by simp)
    simpa [List.find?_cons, ha] using ih (fun p hp => h p (by simp [hp]))

theorem filter_ne_of_tags_ne {l : List (Nat × Body)} {t : Nat} {b : Body}
    (h : ∀ p ∈ l, p.1 ≠ t) :
    List.filter (fun p => p.1 != t) (l ++ [(t, b)]) = l := by
  rw [List.filter_append]
  have h1 : List.filter (fun p => p.1 != t) l = l :=
    List.filter_eq_self.mpr (fun p hp => by simpa using h p hp)
  simp [h1]

/-- Negatively acknowledging the outstanding deliveries in reverse fetch
order rebuilds their bodies, in original order, at the front of the queue,
and leaves no delivery unacknowledged. -/
theorem nack_restore :
    ∀ (ps : List (Nat × Body)) (q : List Body) (nt : Nat),
      (ps.map Prod.fst).Nodup →
      List.foldl basicNack ⟨q, nt, ps⟩ (ps.map Prod.fst).reverse =
        ⟨ps.map Prod.snd ++ q, nt, []⟩ := by
  intro ps
  induction ps using List.reverseRecOn with
  | nil => intro q nt _; rfl
  | append_singleton ps p ih =>
    intro q nt hnd
    obtain ⟨t, b⟩ := p
    rw [List.map_append, List.map_append] at *
    have hnd' := hnd
    rw [List.nodup_append] at hnd'
    obtain ⟨hn1, _, hdisj⟩ := hnd'
    have htags : ∀ p ∈ ps, p.1 ≠ t := by
      intro p hp hpt
      exact hdisj (List.mem_map_of_mem Prod.fst hp) (by simp [hpt])
    have hstep : basicNack ⟨q, nt, ps ++ [(t, b)]⟩ t = ⟨b :: q, nt, ps⟩ := by
      simp only [basicNack]
      rw [find?_eq_of_head_tags_ne htags]
      simp [List.find?, filter_ne_of_tags_ne htags]
    rw [List.reverse_append]
    simp only [List.map_cons, List.map_nil, List.reverse_cons, List.reverse_nil,
      List.nil_append, List.singleton_append, List.foldl_cons]
    rw [hstep, ih (b :: q) nt hn1]
    simp

/-! ### The peek loop invariant -/

/-- Each run of the `peek_messages` fetch loop pulls some prefix of the
queue (one message per fresh increasing delivery tag), records every tag in
fetch order in `messages_to_requeue`, and moves exactly those deliveries to
the unacknowledged set — whatever the filter, the display outcome, or an
escaping exception. -/
theorem peekLoop_spec (target? : Option String) (limit : Nat) :
    ∀ (fuel : Nat) (s : PeekSt),
      ∃ ps : List (Nat × Body),
        (peekLoop target? limit fuel s).fetched = s.fetched ++ ps.map Prod.fst ∧
        (peekLoop target? limit fuel s).ch.queue = s.ch.queue.drop ps.length ∧
        (peekLoop target? limit fuel s).ch.unacked = s.ch.unacked ++ ps ∧
        (peekLoop target? limit fuel s).ch.nextTag = s.ch.nextTag + ps.length ∧
        ps.map Prod.snd = s.ch.queue.take ps.length ∧
        ps.map Prod.fst = List.range' s.ch.nextTag ps.length ∧
        ps.length ≤ fuel := by
  intro fuel
  induction fuel with
  | zero =>
    intro s
    exact ⟨[], by simp [peekLoop]⟩
  | succ n ih =>
    intro s
    cases hq : s.ch.queue with
    | nil =>
      refine ⟨[], ?_⟩
      simp [peekLoop, basicGet, hq]
    | cons b rest =>
      have hone : ∀ (sh : Nat) (ra : Bool),
          ∃ ps : List (Nat × Body),
            (peekLoop target? limit n
              ⟨⟨rest, s.ch.nextTag + 1, s.ch.unacked ++ [(s.ch.nextTag, b)]⟩,
               s.fetched ++ [s.ch.nextTag], sh, ra⟩).fetched = s.fetched ++ ps.map Prod.fst ∧
            (peekLoop target? limit n
              ⟨⟨rest, s.ch.nextTag + 1, s.ch.unacked ++ [(s.ch.nextTag, b)]⟩,
               s.fetched ++ [s.ch.nextTag], sh, ra⟩).ch.queue = (b :: rest).drop ps.length ∧
            (peekLoop target? limit n
              ⟨⟨rest, s.ch.nextTag + 1, s.ch.unacked ++ [(s.ch.nextTag, b)]⟩,
               s.fetched ++ [s.ch.nextTag], sh, ra⟩).ch.unacked = s.ch.unacked ++ ps ∧
            (peekLoop target? limit n
              ⟨⟨rest, s.ch.nextTag + 1, s.ch.unacked ++ [(s.ch.nextTag, b)]⟩,
               s.fetched ++ [s.ch.nextTag], sh, ra⟩).ch.nextTag = s.ch.nextTag + ps.length ∧
            ps.map Prod.snd = (b :: rest).take ps.length ∧
            ps.map Prod.fst = List.range' s.ch.nextTag ps.length ∧
            ps.length ≤ n + 1 := by
        intro sh ra
        obtain ⟨ps', h1, h2, h3, h4, h5, h6, h7⟩ :=
          ih ⟨⟨rest, s.ch.nextTag + 1, s.ch.unacked ++ [(s.ch.nextTag, b)]⟩,
              s.fetched ++ [s.ch.nextTag], sh, ra⟩
        refine ⟨(s.ch.nextTag, b) :: ps', ?_, ?_, ?_, ?_, ?_, ?_, ?_⟩
        · rw [h1]; simp
        · rw [h2]; simp [List.drop_succ_cons]
        · rw [h3]; simp
        · rw [h4]; simp only [List.length_cons]; omega
        · rw [List.map_cons, List.length_cons, List.take_succ_cons]
          congr 1
        · rw [List.map_cons, List.length_cons, List.range'_succ]
          congr 1
        · simp only [List.length_cons]
          omega
      have hstop : ∀ (sh : Nat) (ra : Bool),
          ∃ ps : List (Nat × Body),
            (PeekSt.fetched
              ⟨⟨rest, s.ch.nextTag + 1, s.ch.unacked ++ [(s.ch.nextTag, b)]⟩,
               s.fetched ++ [s.ch.nextTag], sh, ra⟩) = s.fetched ++ ps.map Prod.fst ∧
            (⟨rest, s.ch.nextTag + 1, s.ch.unacked ++ [(s.ch.nextTag, b)]⟩ : Channel).queue
              = (b :: rest).drop ps.length ∧
            (⟨rest, s.ch.nextTag + 1, s.ch.unacked ++ [(s.ch.nextTag, b)]⟩ : Channel).unacked
              = s.ch.unacked ++ ps ∧
            (⟨rest, s.ch.nextTag + 1, s.ch.unacked ++ [(s.ch.nextTag, b)]⟩ : Channel).nextTag
              = s.ch.nextTag + ps.length ∧
            ps.map Prod.snd = (b :: rest).take ps.length ∧
            ps.map Prod.fst = List.range' s.ch.nextTag ps.length ∧
            ps.length ≤ n + 1 := by
        intro sh ra
        exact ⟨[(s.ch.nextTag, b)], by simp, rfl, by simp, by simp, rfl,
               by simp [List.range'_one], by simp⟩
      rcases target? with _ | t
      · cases b with
        | obj o =>
          simp only [peekLoop, basicGet, hq]
          by_cases hl : limit ≤ s.shown + 1
          · simp only [hl, if_true]
            exact hstop (s.shown + 1) s.raised
          · simp only [hl, if_false]
            exact hone (s.shown + 1) s.raised
        | badJson =>
          simp only [peekLoop, basicGet, hq]
          by_cases hl : limit ≤ s.shown + 1
          · simp only [hl, if_true]
            exact hstop (s.shown + 1) s.raised
          · simp only [hl, if_false]
            exact hone (s.shown + 1) s.raised
        | nonObj =>
          simp only [peekLoop, basicGet, hq]
          exact hstop s.shown true
        | badUtf8 =>
          simp only [peekLoop, basicGet, hq]
          exact hstop s.shown true
      · cases b with
        | obj o =>
          simp only [peekLoop, basicGet, hq]
          by_cases him : o.imei?.getD "UNKNOWN" = t
          · simp only [him, if_true]
            by_cases hl : limit ≤ s.shown + 1
            · simp only [hl, if_true]
              exact hstop (s.shown + 1) s.raised
            · simp only [hl, if_false]
              exact hone (s.shown + 1) s.raised
          · simp only [him, if_false]
            exact hone s.shown s.raised
        | badJson =>
          simp only [peekLoop, basicGet, hq]
          exact hone s.shown s.raised
        | nonObj =>
          simp only [peekLoop, basicGet, hq]
          exact hstop s.shown true
        | badUtf8 =>
          simp only [peekLoop, basicGet, hq]
          exact hstop s.shown true

/-- Without a filter every fetched message is displayed (or raises and ends
the loop), so the loop fetches at most `limit - shown` further messages. -/
theorem peekLoop_none_bound (limit : Nat) :
    ∀ (fuel : Nat) (s : PeekSt), s.shown < limit →
      (peekLoop none limit fuel s).fetched.length ≤
        s.fetched.length + (limit - s.shown) := by
  intro fuel
  induction fuel with
  | zero =>
    intro s _
    simp only [peekLoop]
    omega
  | succ n ih =>
    intro s hs
    cases hq : s.ch.queue with
    | nil =>
      simp only [peekLoop, basicGet, hq]
      omega
    | cons b rest =>
      cases b with
      | obj o =>
        simp only [peekLoop, basicGet, hq]
        by_cases hl : limit ≤ s.shown + 1
        · simp only [hl, if_true, List.length_append, List.length_cons, List.length_nil]
          omega
        · simp only [hl, if_false]
          have h :=
            ih ⟨⟨rest, s.ch.nextTag + 1, s.ch.unacked ++ [(s.ch.nextTag, Body.obj o)]⟩,
                s.fetched ++ [s.ch.nextTag], s.shown + 1, s.raised⟩
              (by show s.shown + 1 < limit; omega)
          simp only [List.length_append, List.length_cons, List.length_nil] at h
          omega
      | badJson =>
        simp only [peekLoop, basicGet, hq]
        by_cases hl : limit ≤ s.shown + 1
        · simp only [hl, if_true, List.length_append, List.length_cons, List.length_nil]
          omega
        · simp only [hl, if_false]
          have h :=
            ih ⟨⟨rest, s.ch.nextTag + 1, s.ch.unacked ++ [(s.ch.nextTag, Body.badJson)]⟩,
                s.fetched ++ [s.ch.nextTag], s.shown + 1, s.raised⟩
              (by show s.shown + 1 < limit; omega)
          simp only [List.length_append, List.length_cons, List.length_nil] at h
          omega
      | nonObj =>
        simp only [peekLoop, basicGet, hq, List.length_append, List.length_cons,
          List.length_nil]
        omega
      | badUtf8 =>
        simp only [peekLoop, basicGet, hq, List.length_append, List.length_cons,
          List.length_nil]
        omega

/-- The inspect loop nacks each delivery right after its display: on a clean
run the nack list equals the fetch list (same order); when decoding raised,
exactly the last fetched delivery is missing from the nack list. -/
theorem inspectLoop_inv :
    ∀ (fuel : Nat) (ch : Channel) (acc : List Nat),
      ((inspectLoop fuel ch acc acc).raised = false →
        (inspectLoop fuel ch acc acc).nacked = (inspectLoop fuel ch acc acc).fetched) ∧
      ((inspectLoop fuel ch acc acc).raised = true →
        ∃ t, (inspectLoop fuel ch acc acc).fetched =
          (inspectLoop fuel ch acc acc).nacked ++ [t]) := by
  intro fuel
  induction fuel with
  | zero =>
    intro ch acc
    refine ⟨fun _ => rfl, fun h => ?_⟩
    simp only [inspectLoop] at h
    cases h
  | succ n ih =>
    intro ch acc
    cases hq : ch.queue with
    | nil =>
      refine ⟨fun _ => ?_, fun h => ?_⟩
      · simp only [inspectLoop, basicGet, hq]
      · simp only [inspectLoop, basicGet, hq] at h
        cases h
    | cons b rest =>
      cases b with
      | obj o =>
        simp only [inspectLoop, basicGet, hq]
        exact ih _ (acc ++ [ch.nextTag])
      | badJson =>
        simp only [inspectLoop, basicGet, hq]
        exact ih _ (acc ++ [ch.nextTag])
      | nonObj =>
        refine ⟨fun h => ?_, fun _ => ?_⟩
        · simp only [inspectLoop, basicGet, hq] at h
          cases h
        · exact ⟨ch.nextTag, by simp only [inspectLoop, basicGet, hq]⟩
      | badUtf8 =>
        refine ⟨fun h => ?_, fun _ => ?_⟩
        · simp only [inspectLoop, basicGet, hq] at h
          cases h
        · exact ⟨ch.nextTag, by simp only [inspectLoop, basicGet, hq]⟩

/-- Component form of `nack_restore` over an arbitrary channel. -/
theorem nack_restore_ch (ps : List (Nat × Body)) (hnd : (ps.map Prod.fst).Nodup)
    (ch : Channel) (hun : ch.unacked = ps) :
    List.foldl basicNack ch (ps.map Prod.fst).reverse =
      ⟨ps.map Prod.snd ++ ch.queue, ch.nextTag, []⟩ := by
  obtain ⟨q, nt, un⟩ := ch
  simp only at hun
  subst hun
  exact nack_restore un q nt hnd

/-! ### Lemmas about probe discovery -/

/-- Every snapshot the probe loop produces either was in the accumulator or
is named by one of the remaining candidates. -/
theorem probeLoop_mem (existing : String → Option (Nat × Nat)) :
    ∀ (cands : List String) (found : List QueueSnapshot) (seen : List String)
      (q : QueueSnapshot), q ∈ probeLoop existing cands found seen →
      q ∈ found ∨ q.name ∈ cands := by
  intro cands
  induction cands with
  | nil =>
    intro found seen q hq
    exact Or.inl hq
  | cons c cs ih =>
    intro found seen q hq
    simp only [probeLoop] at hq
    by_cases hc : c ∈ seen
    · rw [if_pos hc] at hq
      rcases ih found seen q hq with h | h
      · exact Or.inl h
      · exact Or.inr (List.mem_cons_of_mem c h)
    · rw [if_neg hc] at hq
      cases hex : existing c with
      | none =>
        rw [hex] at hq
        rcases ih found seen q hq with h | h
        · exact Or.inl h
        · exact Or.inr (List.mem_cons_of_mem c h)
      | some mc =>
        rw [hex] at hq
        rcases ih _ _ q hq with h | h
        · rcases List.mem_append.mp h with h2 | h2
          · exact Or.inl h2
          · simp only [List.mem_singleton] at h2
            subst h2
            exact Or.inr (List.mem_cons_self c cs)
        · exact Or.inr (List.mem_cons_of_mem c h)

/-! ### Lemmas about command dispatch -/

theorem find?_append_of_none {α : Type} (p : α → Bool) (l1 l2 : List α)
    (h : List.find? p l1 = none) :
    List.find? p (l1 ++ l2) = List.find? p l2 := by
  induction l1 with
  | nil => rfl
  | cons a l ih =>
    cases hp : p a with
    | true => simp [List.find?_cons, hp] at h
    | false =>
      simp only [List.cons_append, List.find?_cons, hp] at h ⊢
      exact ih h

/-- Publishing to the default exchange appends to the named queue,
persistently; other queues are untouched by the lookup. -/
theorem lookupQ_publish (b : CmdBroker) (n : String) (m : CommandEnvelope) :
    lookupQ (basic_publish b n m) n =
      (lookupQ b n).map (fun q => ⟨q.durable, q.msgs ++ [(m, true)]⟩) := by
  induction b with
  | nil => rfl
  | cons p bs ih =>
    simp only [basic_publish, List.map_cons, lookupQ, List.find?_cons]
    by_cases hp : p.1 = n
    · simp [hp]
    · have hb : (p.1 == n) = false := by simpa using hp
      simp only [hb, if_false, Bool.false_eq_true]
      simpa [lookupQ, basic_publish] using ih

/-- A durable declare of an absent queue appends an empty durable queue. -/
theorem lookupQ_declare_absent (b : CmdBroker) (n : String)
    (h : lookupQ b n = none) :
    queue_declare_durable b n = b ++ [(n, ⟨true, []⟩)] ∧
      lookupQ (b ++ [(n, (⟨true, []⟩ : CmdQueue))]) n = some ⟨true, []⟩ := by
  constructor
  · simp only [queue_declare_durable, h]
  · have hf : List.find? (fun p => p.1 == n) b = none := by
      simp only [lookupQ] at h
      cases hfb : List.find? (fun p => p.1 == n) b with
      | none => rfl
      | some v => rw [hfb] at h; cases h
    simp [lookupQ, find?_append_of_none _ _ _ hf, List.find?_cons]

/-! ### Claim theorems -/

/-- C1, counterexample.  The claim fails on the code at concrete inputs:
with two well-formed sample messages, `inspect_queue_by_name` issues its
negative acknowledgements in fetch order `[0, 1]`, not in reverse fetch
order `[1, 0]` (each message is nacked individually right after display,
not in a cleanup block); and with a single non-UTF-8 body,
`list_queue_commands` fetches one handle but, because its nack loop is not
in a guaranteed-run cleanup block, restores nothing when display raises. -/
theorem c1_counterexample :
    ((inspect_queue_by_name
        ⟨[Body.obj JsonObj.empty, Body.obj JsonObj.empty], 0, []⟩).nacked ≠
      (inspect_queue_by_name
        ⟨[Body.obj JsonObj.empty, Body.obj JsonObj.empty], 0, []⟩).fetched.reverse) ∧
    ((list_queue_commands ⟨[Body.badUtf8], 0, []⟩).fetched ≠ [] ∧
     (list_queue_commands ⟨[Body.badUtf8], 0, []⟩).nacked = []) := by
  decide

/-- C1 (amended): `peek_messages` and `_check_command_queue_status` nack
every fetched handle in reverse fetch order in a `finally` block that runs
even when display/decoding raised; `list_queue_commands` nacks every
fetched handle in reverse fetch order only on an error-free display — when
display raises, no handle is restored; `inspect_queue_by_name` nacks each
handle individually in fetch order right after its display — on a clean run
the nack sequence equals the fetch sequence, and when decoding a sample
raises, exactly the last fetched handle is left unrestored. -/
theorem c1_restoration (ch : Channel) (target? : Option String) (limit : Nat) :
    ((peek_messages target? limit ch).nacked =
      (peek_messages target? limit ch).fetched.reverse) ∧
    ((check_command_queue_status ch).nacked =
      (check_command_queue_status ch).fetched.reverse) ∧
    ((list_queue_commands ch).raised = false →
      (list_queue_commands ch).nacked = (list_queue_commands ch).fetched.reverse) ∧
    ((list_queue_commands ch).raised = true → (list_queue_commands ch).nacked = []) ∧
    ((inspect_queue_by_name ch).raised = false →
      (inspect_queue_by_name ch).nacked = (inspect_queue_by_name ch).fetched) ∧
    ((inspect_queue_by_name ch).raised = true →
      ∃ t, (inspect_queue_by_name ch).fetched =
        (inspect_queue_by_name ch).nacked ++ [t]) := by
  have hpeek : (peek_messages target? limit ch).nacked =
      (peek_messages target? limit ch).fetched.reverse := by
    simp only [peek_messages]
    split
    · rfl
    · rfl
  have hccq : (check_command_queue_status ch).nacked =
      (check_command_queue_status ch).fetched.reverse := by
    simp only [check_command_queue_status]
    split
    · rfl
    · rfl
  have hlqc : ((list_queue_commands ch).raised = false →
      (list_queue_commands ch).nacked = (list_queue_commands ch).fetched.reverse) ∧
      ((list_queue_commands ch).raised = true → (list_queue_commands ch).nacked = []) := by
    simp only [list_queue_commands]
    repeat' split
    all_goals
      first
      | exact ⟨fun _ => rfl, fun h => Bool.noConfusion h⟩
      | exact ⟨fun h => Bool.noConfusion h, fun _ => rfl⟩
  have hins : ((inspect_queue_by_name ch).raised = false →
      (inspect_queue_by_name ch).nacked = (inspect_queue_by_name ch).fetched) ∧
      ((inspect_queue_by_name ch).raised = true →
        ∃ t, (inspect_queue_by_name ch).fetched =
          (inspect_queue_by_name ch).nacked ++ [t]) := by
    simp only [inspect_queue_by_name]
    split
    · exact ⟨fun _ => rfl, fun h => Bool.noConfusion h⟩
    · exact inspectLoop_inv _ ch []
  exact ⟨hpeek, hccq, hlqc.1, hlqc.2, hins.1, hins.2⟩

/-- C2: browsing with `peek_messages` (with or without a filter, so in
particular without one, as the claim states) leaves the queue's content and
FIFO order exactly as before, leaves the pending count unchanged, and
leaves no delivery unacknowledged — under the claim's model of a broker
that re-enqueues negatively acknowledged messages at the queue front, with
no concurrent consumers (no outstanding foreign deliveries). -/
theorem c2_peek_preserves_queue (queue : List Body) (nextTag : Nat)
    (target? : Option String) (limit : Nat) :
    (peek_messages target? limit ⟨queue, nextTag, []⟩).ch.queue = queue ∧
    (peek_messages target? limit ⟨queue, nextTag, []⟩).ch.queue.length = queue.length ∧
    (peek_messages target? limit ⟨queue, nextTag, []⟩).ch.unacked = [] := by
  by_cases h0 : queue.length = 0
  · have hq : queue = [] := List.length_eq_zero.mp h0
    subst hq
    exact ⟨rfl, rfl, rfl⟩
  · obtain ⟨ps, h1, h2, h3, h4, h5, h6, h7⟩ :=
      peekLoop_spec target? limit (min (limit * 3) queue.length)
        ⟨⟨queue, nextTag, []⟩, [], 0, false⟩
    simp only [List.nil_append] at h1 h3
    have hnd : (ps.map Prod.fst).Nodup := by
      rw [h6]
      exact List.nodup_range' _ _
    have hch : (peek_messages target? limit ⟨queue, nextTag, []⟩).ch =
        ⟨queue, nextTag + ps.length, []⟩ := by
      simp only [peek_messages]
      rw [if_neg h0]
      simp only
      rw [h1, nack_restore_ch ps hnd _ h3, h2, h4]
      rw [h5, List.take_append_drop]
    refine ⟨by rw [hch], by rw [hch], by rw [hch]⟩

/-- C4: the number of messages fetched by `peek_messages` is bounded by
`min(queue_depth, limit * 3)` when an IMEI filter is active and by
`min(queue_depth, limit)` without a filter; and the fetch loop never pulls
more messages than the queue holds, whatever budget it is given (the
`method_frame is None` break). -/
theorem c4_fetch_budget (ch : Channel) (limit : Nat) (t : String) :
    (peek_messages (some t) limit ch).fetched.length ≤
      min ch.queue.length (limit * 3) ∧
    (peek_messages none limit ch).fetched.length ≤ min ch.queue.length limit ∧
    (∀ (target? : Option String) (fuel : Nat),
      (peekLoop target? limit fuel ⟨ch, [], 0, false⟩).fetched.length ≤
        ch.queue.length) := by
  have hlen : ∀ (target? : Option String) (fuel : Nat),
      (peekLoop target? limit fuel ⟨ch, [], 0, false⟩).fetched.length ≤
        ch.queue.length ∧
      (peekLoop target? limit fuel ⟨ch, [], 0, false⟩).fetched.length ≤ fuel := by
    intro target? fuel
    obtain ⟨ps, h1, h2, h3, h4, h5, h6, h7⟩ :=
      peekLoop_spec target? limit fuel ⟨ch, [], 0, false⟩
    simp only [List.nil_append] at h1
    have hk : ps.length ≤ ch.queue.length := by
      have := congrArg List.length h5
      simp only [List.length_map, List.length_take] at this
      omega
    constructor
    · rw [h1, List.length_map]
      exact hk
    · rw [h1, List.length_map]
      exact h7
  refine ⟨?_, ?_, fun target? fuel => (hlen target? fuel).1⟩
  · by_cases h0 : ch.queue.length = 0
    · simp only [peek_messages, h0, if_pos]
      simp
    · simp only [peek_messages]
      rw [if_neg h0]
      simp only
      obtain ⟨ha, hb⟩ := hlen (some t) (min (limit * 3) ch.queue.length)
      exact le_min ha (le_trans hb (le_trans (min_le_left _ _) (le_refl _)))
  · by_cases h0 : ch.queue.length = 0
    · simp only [peek_messages, h0, if_pos]
      simp
    · simp only [peek_messages]
      rw [if_neg h0]
      simp only
      obtain ⟨ha, _⟩ := hlen none (min (limit * 3) ch.queue.length)
      by_cases hlim : limit = 0
      · subst hlim
        simp only [Nat.zero_mul, Nat.min_comm, Nat.min_zero] at ha ⊢
        simp [peekLoop]
      · have hb := peekLoop_none_bound limit (min (limit * 3) ch.queue.length)
          ⟨ch, [], 0, false⟩ (by simp only; omega)
        simp only [List.length_nil, Nat.zero_add, Nat.sub_zero] at hb
        exact le_min ha hb

/-- C5: the queue status classification of `list_all_queues` is a total
function of the (messages, consumers) pair and matches the claimed truth
table: BUSY iff both positive, ACTIVE iff consumers positive and no
messages, BACKLOG iff no consumers and messages positive, IDLE iff both
zero. -/
theorem c5_classifier_truth_table (messages consumers : Nat) :
    (classify_queue messages consumers = .busy ↔ 0 < messages ∧ 0 < consumers) ∧
    (classify_queue messages consumers = .active ↔ 0 < consumers ∧ messages = 0) ∧
    (classify_queue messages consumers = .backlog ↔ consumers = 0 ∧ 0 < messages) ∧
    (classify_queue messages consumers = .idle ↔ consumers = 0 ∧ messages = 0) := by
  by_cases hc : 0 < consumers <;> by_cases hm : 0 < messages <;>
    simp [classify_queue, hc, hm] <;> omega

/-- C6: whenever the management endpoint is unreachable, or responds with
any non-200 status, discovery still returns exactly the probe-based result
set over the well-known candidate names, takes the fallback path, and logs
the caller-visible incompleteness warning. -/
theorem c6_discovery_fallback (existing : String → Option (Nat × Nat)) :
    ((discover_queues_smart .unreachable existing).queues = probeFallback existing ∧
     (discover_queues_smart .unreachable existing).warnedIncomplete = true ∧
     (discover_queues_smart .unreachable existing).usedFallback = true) ∧
    (∀ (code : Nat) (qs : List QueueSnapshot), code ≠ 200 →
      (discover_queues_smart (.status code qs) existing).queues = probeFallback existing ∧
      (discover_queues_smart (.status code qs) existing).warnedIncomplete = true ∧
      (discover_queues_smart (.status code qs) existing).usedFallback = true) := by
  refine ⟨⟨rfl, rfl, rfl⟩, ?_⟩
  intro code qs hc
  simp [discover_queues_smart, hc]

/-- C7: partial-name inspection filters the discovered set by a
case-insensitive substring match, and the three outcomes are as claimed:
zero matches report failure (with the hint), a single match is inspected
directly, and two or more matches yield a disambiguation list that is a
permutation of exactly the matching queues sorted by descending message
count; inspecting a term that exists as an exact queue name inspects that
queue directly. -/
theorem c7_partial_name_inspection (mgmt : MgmtResponse)
    (existing : String → Option (Nat × Nat)) (term : String) :
    (∀ q, q ∈ find_queues_by_partial_name mgmt existing term ↔
       q ∈ (discover_queues_smart mgmt existing).queues ∧
         strContainsCI q.name term = true) ∧
    (find_queues_by_partial_name mgmt existing term = [] →
       inspect_queues_by_partial_name mgmt existing term = .notFound) ∧
    (∀ q, find_queues_by_partial_name mgmt existing term = [q] →
       inspect_queues_by_partial_name mgmt existing term = .inspected q.name) ∧
    (2 ≤ (find_queues_by_partial_name mgmt existing term).length →
       inspect_queues_by_partial_name mgmt existing term =
         .disambiguate
           (sortByMessagesDesc (find_queues_by_partial_name mgmt existing term)) ∧
       (sortByMessagesDesc (find_queues_by_partial_name mgmt existing term)).Perm
         (find_queues_by_partial_name mgmt existing term) ∧
       List.Sorted msgGe
         (sortByMessagesDesc (find_queues_by_partial_name mgmt existing term))) ∧
    (∀ exactExists : String → Bool, exactExists term = true →
       inspect_search exactExists mgmt existing term = .inspected term) := by
  refine ⟨?_, ?_, ?_, ?_, ?_⟩
  · intro q
    simp [find_queues_by_partial_name, findFrom, List.mem_filter]
  · intro h
    simp [inspect_queues_by_partial_name, h]
  · intro q h
    simp [inspect_queues_by_partial_name, h, sortByMessagesDesc,
      List.insertionSort, List.orderedInsert]
  · intro h2
    have hne : ¬(find_queues_by_partial_name mgmt existing term = []) := by
      intro h
      rw [h] at h2
      simp at h2
    have hlen : ¬((find_queues_by_partial_name mgmt existing term).length = 1) := by
      omega
    refine ⟨?_, List.perm_insertionSort msgGe _, List.sorted_insertionSort msgGe _⟩
    simp [inspect_queues_by_partial_name, hne, hlen, sortByMessagesDesc]
  · intro exactExists hf
    simp [inspect_search, hf]

/-- C8: `send_command` builds the envelope with the requested command text
and the fixed source, mints a fresh command id exactly when the caller
supplies none, always reports the post-publish queue depth (one more than
the pre-publish depth), and on an absent queue first declares it durable
and then publishes the persistent envelope, so an empty (or absent) queue
reports depth 1. -/
theorem c8_send_command (b : CmdBroker) (imei command : String)
    (commandId? : Option String) (freshUuid now : String) :
    ((send_command b imei command commandId? freshUuid now).envelope.command = command) ∧
    ((send_command b imei command commandId? freshUuid now).envelope.source =
      "command_sender") ∧
    (commandId? = none →
      (send_command b imei command commandId? freshUuid now).envelope.command_id =
        freshUuid) ∧
    (∀ c, commandId? = some c →
      (send_command b imei command commandId? freshUuid now).envelope.command_id = c) ∧
    (∀ pre : CmdQueue, lookupQ b imei = some pre →
      (send_command b imei command commandId? freshUuid now).reportedDepth =
        pre.msgs.length + 1) ∧
    (lookupQ b imei = none →
      (send_command b imei command commandId? freshUuid now).reportedDepth = 1 ∧
      lookupQ (send_command b imei command commandId? freshUuid now).broker imei =
        some ⟨true, [((send_command b imei command commandId? freshUuid now).envelope,
          true)]⟩) := by
  refine ⟨rfl, rfl, ?_, ?_, ?_, ?_⟩
  · intro h
    subst h
    rfl
  · intro c h
    subst h
    rfl
  · intro pre hpre
    simp only [send_command, queue_declare_durable, hpre]
    rw [lookupQ_publish, hpre]
    simp
  · intro h
    obtain ⟨hdecl, hlook⟩ := lookupQ_declare_absent b imei h
    constructor
    · simp only [send_command, queue_declare_durable, h, hdecl]
      rw [lookupQ_publish, hlook]
      simp
    · simp only [send_command, queue_declare_durable, h, hdecl]
      rw [lookupQ_publish, hlook]
      simp

/-- C10: the probe-fallback candidate set is exactly the data queue plus
six fixed system names, none of which is in 15-digit all-numeric IMEI
format; hence any fallback discovery filtered with `imei-only` is empty. -/
theorem c10_fallback_has_no_imei_queue (existing : String → Option (Nat × Nat)) :
    (system_queues.all (fun n => !is_imei_format n) = true) ∧
    (applyFilter "imei-only" (probeFallback existing) = []) ∧
    (applyFilter "imei-only" (discover_queues_smart .unreachable existing).queues = []) := by
  have hnames : ∀ q ∈ probeFallback existing, q.name ∈ system_queues := by
    intro q hq
    rcases probeLoop_mem existing system_queues [] [] q hq with h | h
    · exact absurd h (List.not_mem_nil q)
    · exact h
  have hfalse : ∀ n ∈ system_queues, is_imei_format n = false := by decide
  have hfil : (probeFallback existing).filter (fun q => is_imei_format q.name) = [] := by
    rw [List.filter_eq_nil_iff]
    intro q hq
    simp [hfalse q.name (hnames q hq)]
  have happ : ∀ qs : List QueueSnapshot,
      applyFilter "imei-only" qs = qs.filter (fun q => is_imei_format q.name) := by
    intro qs
    rfl
  refine ⟨by decide, ?_, ?_⟩
  · rw [happ]
    exact hfil
  · show applyFilter "imei-only" (probeFallback existing) = []
    rw [happ]
    exact hfil

/-! ### Concrete instantiations of the claim theorems -/

/-- C1 instantiated on concrete queues: reverse-order restoration for
`peek_messages` (even across a raising body) and for an error-free
`list_queue_commands`; no restoration for a raising `list_queue_commands`;
fetch-order nacks for `inspect_queue_by_name`, with the last handle
unrestored when decoding raises. -/
theorem c1_restoration_witness :
    ((peek_messages none 5 ⟨[Body.obj JsonObj.empty, Body.badUtf8], 0, []⟩).nacked =
      (peek_messages none 5 ⟨[Body.obj JsonObj.empty, Body.badUtf8], 0, []⟩).fetched.reverse) ∧
    ((list_queue_commands ⟨[Body.obj JsonObj.empty], 0, []⟩).nacked =
      (list_queue_commands ⟨[Body.obj JsonObj.empty], 0, []⟩).fetched.reverse) ∧
    ((list_queue_commands ⟨[Body.badUtf8], 0, []⟩).nacked = []) ∧
    ((inspect_queue_by_name ⟨[Body.obj JsonObj.empty, Body.obj JsonObj.empty], 0, []⟩).nacked =
      (inspect_queue_by_name ⟨[Body.obj JsonObj.empty, Body.obj JsonObj.empty], 0, []⟩).fetched) ∧
    (∃ t, (inspect_queue_by_name ⟨[Body.badUtf8], 0, []⟩).fetched =
      (inspect_queue_by_name ⟨[Body.badUtf8], 0, []⟩).nacked ++ [t]) :=
  ⟨(c1_restoration ⟨[Body.obj JsonObj.empty, Body.badUtf8], 0, []⟩ none 5).1,
   (c1_restoration ⟨[Body.obj JsonObj.empty], 0, []⟩ none 5).2.2.1 (by decide),
   (c1_restoration ⟨[Body.badUtf8], 0, []⟩ none 5).2.2.2.1 (by decide),
   (c1_restoration ⟨[Body.obj JsonObj.empty, Body.obj JsonObj.empty], 0, []⟩ none
      5).2.2.2.2.1 (by decide),
   (c1_restoration ⟨[Body.badUtf8], 0, []⟩ none 5).2.2.2.2.2 (by decide)⟩

/-- C6 instantiated at a concrete non-success (500) management response. -/
theorem c6_discovery_fallback_witness :
    (discover_queues_smart (.status 500 []) (fun _ => none)).queues =
      probeFallback (fun _ => none) ∧
    (discover_queues_smart (.status 500 []) (fun _ => none)).warnedIncomplete = true ∧
    (discover_queues_smart (.status 500 []) (fun _ => none)).usedFallback = true :=
  (c6_discovery_fallback (fun _ => none)).2 500 [] (by decide)

/-- The discovered set of the spec's exact-vs-partial scenario: the exact
queue `350317177240177`, two more queues containing `3503`, and one
non-matching system queue. -/
def demoQueues : List QueueSnapshot :=
  [⟨"350317177240177", 5, 1, true, false⟩,
   ⟨"350317177240178", 9, 0, true, false⟩,
   ⟨"350398765432109", 7, 0, true, false⟩,
   ⟨"device_tcp_data", 3, 1, true, false⟩]

/-- C7 instantiated on the scenario set: zero matches report failure, the
single `"device"` match is inspected directly, `"3503"` yields the
disambiguation list of exactly its three matches sorted by descending
message count, and the exact name `"350317177240177"` is inspected
directly. -/
theorem c7_partial_name_inspection_witness :
    inspect_queues_by_partial_name (.status 200 demoQueues) (fun _ => none) "zzz" =
      .notFound ∧
    inspect_queues_by_partial_name (.status 200 demoQueues) (fun _ => none) "device" =
      .inspected "device_tcp_data" ∧
    inspect_queues_by_partial_name (.status 200 demoQueues) (fun _ => none) "3503" =
      .disambiguate
        (sortByMessagesDesc
          (find_queues_by_partial_name (.status 200 demoQueues) (fun _ => none) "3503")) ∧
    sortByMessagesDesc
        (find_queues_by_partial_name (.status 200 demoQueues) (fun _ => none) "3503") =
      [⟨"350317177240178", 9, 0, true, false⟩,
       ⟨"350398765432109", 7, 0, true, false⟩,
       ⟨"350317177240177", 5, 1, true, false⟩] ∧
    inspect_search (fun n => n == "350317177240177") (.status 200 demoQueues)
        (fun _ => none) "350317177240177" = .inspected "350317177240177" :=
  ⟨(c7_partial_name_inspection (.status 200 demoQueues) (fun _ => none) "zzz").2.1
      (by decide),
   (c7_partial_name_inspection (.status 200 demoQueues) (fun _ => none) "device").2.2.1
      ⟨"device_tcp_data", 3, 1, true, false⟩ (by decide),
   ((c7_partial_name_inspection (.status 200 demoQueues) (fun _ => none) "3503").2.2.2.1
      (by decide)).1,
   by decide,
   (c7_partial_name_inspection (.status 200 demoQueues) (fun _ => none)
      "350317177240177").2.2.2.2 (fun n => n == "350317177240177") (by decide)⟩

/-- C8 instantiated on the spec's round-trip scenario: `getinfo` sent to an
absent/empty queue yields a post-publish depth of 1, an envelope whose
command field is `getinfo`, and a minted command id. -/
theorem c8_send_command_witness :
    (send_command [] "350317177240177" "getinfo" none "db1c6eb3" "1700000000").envelope.command
      = "getinfo" ∧
    (send_command [] "350317177240177" "getinfo" none "db1c6eb3"
      "1700000000").envelope.command_id = "db1c6eb3" ∧
    (send_command [] "350317177240177" "getinfo" none "db1c6eb3"
      "1700000000").reportedDepth = 1 :=
  ⟨(c8_send_command [] "350317177240177" "getinfo" none "db1c6eb3" "1700000000").1,
   (c8_send_command [] "350317177240177" "getinfo" none "db1c6eb3" "1700000000").2.2.1 rfl,
   ((c8_send_command [] "350317177240177" "getinfo" none "db1c6eb3"
      "1700000000").2.2.2.2.2 (by decide)).1⟩

end RMQ
